import Mathlib

/-!
Verification development for `ReEDS_Augur/stress_periods.py`: the
adequacy-driven stress-period selection and reserve-margin update engine.

Shallow embedding conventions:
* Hourly MWh quantities, loads and metric values are rationals (`ℚ`).
* A pandas Series / DataFrame column becomes a Lean `List`; groupby
  operations become filters/folds over those lists.
* The per-region pipelines (`groupby('r')` in the source) are modelled for
  one region at a time: every groupby step in the source acts independently
  on each region's rows, so a single-region model captures each region's
  curve exactly.
-/

namespace StressPeriods

/-! ## Piecewise-linear shortfall curve (`update_prm`, sample-informed mode)

Embeds `stress_periods.py` lines 289-375.  For one region:
* `net_short['net_short_mwh'].clip(lower=0)` — hourly clipping (line 308);
* `groupby(['r','sample']).sum()` — per-sample totals (line 310);
* `net_short_crit.loc[net_short_crit.net_short_mwh > 0]` — keep samples with
  positive total shortfall (line 353);
* sort descending, `slope = cumsum(-1)/n_samples`, re-sort ascending
  (lines 358-362): at ascending position `i` of `k` kept samples the slope is
  `-(k - i)/n_samples`, i.e. minus the remaining-sample count over `n_samples`;
* `x1 = shift(1, fill_value=0)`, `x2 = net_short_mwh` (lines 364-366);
* `Dy = slope*(x2-x1)` (line 368), asserted `≤ 0` on line 370;
* `intercept = sum(kept)/n_samples` (line 355), `y1 = intercept + cumsum(Dy).shift(1)`
  (lines 372-373).
-/

/-- Hourly clipping `clip(lower=0)` of a net-shortfall value (line 308). -/
def clipShortfall (x : ℚ) : ℚ := max x 0

/-- Total clipped shortfall of one Monte-Carlo sample over its hours
(lines 308-310: clip then `groupby(['r','sample']).sum()`). -/
def sampleTotal (hourly : List ℚ) : ℚ := (hourly.map clipShortfall).sum

/-- Per-sample total shortfalls for one region: `net_short_crit` restricted to
that region, one entry per sample. -/
def regionSampleTotals (samples : List (List ℚ)) : List ℚ :=
  samples.map sampleTotal

/-- `net_short_crit.loc[net_short_crit.net_short_mwh > 0]` (line 353). -/
def keptTotals (totals : List ℚ) : List ℚ :=
  totals.filter (fun v => decide (0 < v))

/-- The kept totals sorted ascending by shortfall (line 362). -/
def sortedTotals (totals : List ℚ) : List ℚ :=
  List.insertionSort (· ≤ ·) (keptTotals totals)

/-- One segment of the piecewise-linear shortfall curve (lines 358-366). -/
structure Segment where
  slope : ℚ
  x1 : ℚ
  x2 : ℚ
deriving Repr, DecidableEq

/-- Builds the segments from the ascending-sorted kept totals.  `prev` is the
previous sample's shortfall (`x1 = shift(1, fill_value=0)`, line 364); the
element with `rest` still to come has `rest.length + 1` samples remaining, so
its slope is `-(rest.length + 1)/n` (cumulative `-1` per sample divided by
`n_samples`, lines 358-360). -/
def segmentsAux (n : ℕ) (prev : ℚ) : List ℚ → List Segment
  | [] => []
  | v :: rest =>
      ⟨-(((rest.length + 1 : ℕ) : ℚ)) / (n : ℚ), prev, v⟩ :: segmentsAux n v rest

/-- The piecewise-linear curve for one region, given `n_samples` and the
region's per-sample totals. -/
def plfSegments (n : ℕ) (totals : List ℚ) : List Segment :=
  segmentsAux n 0 (sortedTotals totals)

/-- `Dy = slope * (x2 - x1)` (line 368). -/
def Dy (s : Segment) : ℚ := s.slope * (s.x2 - s.x1)

/-- `intercept`: initial EUE, sum of kept totals over `n_samples` (line 355). -/
def plfIntercept (n : ℕ) (totals : List ℚ) : ℚ := (keptTotals totals).sum / (n : ℚ)

/-- The breakpoint ordinates: `intercept` followed by the running sums
`intercept + cumsum(Dy)` (lines 372-373 produce exactly the prefix of this
list; the final entry is the curve's terminal value). -/
def yBreakpoints (n : ℕ) (totals : List ℚ) : List ℚ :=
  ((plfSegments n totals).map Dy).scanl (fun a d => a + d) (plfIntercept n totals)

/-- The curve the source builds for one region: `n_samples = len(net_short)`
is the number of samples (line 296). -/
def regionPlf (samples : List (List ℚ)) : List Segment :=
  plfSegments samples.length (regionSampleTotals samples)

/-- Breakpoint ordinates of the curve built for one region. -/
def regionYBreakpoints (samples : List (List ℚ)) : List ℚ :=
  yBreakpoints samples.length (regionSampleTotals samples)

lemma mem_sortedTotals_pos {totals : List ℚ} {v : ℚ}
    (hv : v ∈ sortedTotals totals) : 0 < v := by
  have hperm := List.perm_insertionSort (· ≤ ·) (keptTotals totals)
  have hv' : v ∈ keptTotals totals := hperm.mem_iff.mp hv
  have := List.of_mem_filter hv'
  exact of_decide_eq_true this

lemma sorted_sortedTotals (totals : List ℚ) :
    List.Sorted (· ≤ ·) (sortedTotals totals) :=
  List.sorted_insertionSort (· ≤ ·) (keptTotals totals)

/-- Core invariant: on an ascending list whose elements dominate `prev`, every
segment has nonpositive slope and `x1 ≤ x2`. -/
lemma segmentsAux_slope_nonpos_x1_le_x2 (n : ℕ) :
    ∀ (l : List ℚ) (prev : ℚ), List.Sorted (· ≤ ·) l → (∀ x ∈ l, prev ≤ x) →
      ∀ s ∈ segmentsAux n prev l, s.slope ≤ 0 ∧ s.x1 ≤ s.x2 := by
  intro l
  induction l with
  | nil => intro prev _ _ s hs; simp [segmentsAux] at hs
  | cons v rest ih =>
      intro prev hsorted hdom s hs
      rw [segmentsAux] at hs
      rcases List.mem_cons.mp hs with hhead | htail
      · subst hhead
        constructor
        · have hnum : (0 : ℚ) ≤ ((rest.length + 1 : ℕ) : ℚ) := by positivity
          have hden : (0 : ℚ) ≤ (n : ℚ) := by positivity
          exact div_nonpos_iff.mpr (Or.inr ⟨neg_nonpos_of_nonneg hnum, hden⟩)
        · exact hdom v (List.mem_cons_self _ _)
      · have hrest : List.Sorted (· ≤ ·) rest := (List.sorted_cons.mp hsorted).2
        have hdomv : ∀ x ∈ rest, v ≤ x := (List.sorted_cons.mp hsorted).1
        exact ih v hrest hdomv s htail

/-- Every segment of any region's curve has `Dy ≤ 0` and slope `≤ 0`. -/
lemma plfSegments_Dy_nonpos (n : ℕ) (totals : List ℚ) :
    ∀ s ∈ plfSegments n totals, Dy s ≤ 0 ∧ s.slope ≤ 0 := by
  intro s hs
  have hdom : ∀ x ∈ sortedTotals totals, (0 : ℚ) ≤ x :=
    fun x hx => le_of_lt (mem_sortedTotals_pos hx)
  have h := segmentsAux_slope_nonpos_x1_le_x2 n (sortedTotals totals) 0
    (sorted_sortedTotals totals) hdom s hs
  refine ⟨?_, h.1⟩
  have hx : (0 : ℚ) ≤ s.x2 - s.x1 := sub_nonneg.mpr h.2
  calc Dy s = s.slope * (s.x2 - s.x1) := rfl
    _ ≤ 0 := mul_nonpos_iff.mpr (Or.inr ⟨h.1, hx⟩)

/-- Running sums of nonpositive increments are non-increasing. -/
lemma scanl_add_nonpos_chain :
    ∀ (dys : List ℚ), (∀ d ∈ dys, d ≤ 0) →
      ∀ init : ℚ, List.Chain' (fun a b => b ≤ a) (dys.scanl (fun a d => a + d) init) := by
  intro dys
  induction dys with
  | nil => intro _ init; simp [List.scanl]
  | cons d ds ih =>
      intro h init
      rw [List.scanl]
      rcases ds with _ | ⟨d2, ds2⟩
      · simp [List.scanl]
        exact h d (List.mem_cons_self _ _)
      · rw [List.scanl]
        refine List.chain'_cons.mpr ⟨add_le_of_nonpos_right (h d (List.mem_cons_self _ _)), ?_⟩
        have := ih (fun x hx => h x (List.mem_cons_of_mem d hx)) (init + d)
        simpa [List.scanl] using this

/-- C1: for every region's piecewise-linear shortfall curve constructed by
`update_prm` in sample-informed mode (hourly shortfalls clipped at zero and
summed per sample, samples with positive total kept, sorted ascending, slope
at each segment equal to minus the remaining-sample count over `n_samples`),
every segment satisfies `Dy = slope*(x2-x1) ≤ 0` and `slope ≤ 0`, and the
breakpoint ordinates are non-increasing — so the assertion on line 370
(`plfs['Dy'].max() <= 0`) never fires on a constructed segment. -/
theorem c1_shortfall_curve_nonincreasing (samples : List (List ℚ)) :
    (∀ s ∈ regionPlf samples, Dy s ≤ 0 ∧ s.slope ≤ 0)
    ∧ List.Chain' (fun a b => b ≤ a) (regionYBreakpoints samples) := by
  constructor
  · exact plfSegments_Dy_nonpos samples.length (regionSampleTotals samples)
  · exact scanl_add_nonpos_chain _
      (fun d hd => by
        rcases List.mem_map.mp hd with ⟨s, hs, rfl⟩
        exact (plfSegments_Dy_nonpos _ _ s hs).1)
      _

/-! ## NEUE by period (`get_stress_periods`, lines 147-174)

Hourly EUE and load tables are functions `hour → base region → ℚ`; the base
regions live in a list `regions`; `rmap` maps each base region to its
aggregate region at the chosen hierarchy level (lines 127, 132-136, 149-152);
`dayOf` groups hours into calendar days (the `groupby([year, month, day])`).
-/

/-- Aggregation of a table to the hierarchy level:
`rename(columns=rmap).groupby(axis=1, level=0).sum()` (lines 135, 152). -/
def aggAt (regions : List ℕ) (rmap : ℕ → ℕ) (table : ℕ → ℕ → ℚ) (h a : ℕ) : ℚ :=
  ((regions.filter (fun r => rmap r == a)).map (fun r => table h r)).sum

/-- The hours of calendar day `d`: the rows one `groupby` day-group holds. -/
def dayHours (hours : List ℕ) (dayOf : ℕ → ℕ) (d : ℕ) : List ℕ :=
  hours.filter (fun h => dayOf h == d)

/-- Maximum of a list of rationals, as pandas `agg('max')` over a group
(the group is nonempty whenever it exists; `[]` is mapped to `0`). -/
def aggMax : List ℚ → ℚ
  | [] => 0
  | v :: rest => rest.foldl max v

/-- Daily-summed aggregated EUE: `dfeue.groupby([y,m,d]).agg('sum')`
(lines 157-161). -/
def dfeueDaySum (regions : List ℕ) (rmap : ℕ → ℕ) (eue : ℕ → ℕ → ℚ)
    (hours : List ℕ) (dayOf : ℕ → ℕ) (d a : ℕ) : ℚ :=
  ((dayHours hours dayOf d).map (fun h => aggAt regions rmap eue h a)).sum

/-- Daily-summed aggregated load: `dfload.groupby([y,m,d]).agg('sum')`
(lines 162-166). -/
def dfloadDaySum (regions : List ℕ) (rmap : ℕ → ℕ) (load : ℕ → ℕ → ℚ)
    (hours : List ℕ) (dayOf : ℕ → ℕ) (d a : ℕ) : ℚ :=
  ((dayHours hours dayOf d).map (fun h => aggAt regions rmap load h a)).sum

/-- NEUE [ppm] per day and aggregate region under `period_agg_method='sum'`:
the two grouped tables are divided entrywise and scaled by `1e6`
(lines 156-167). -/
def neueSumMode (regions : List ℕ) (rmap : ℕ → ℕ) (eue load : ℕ → ℕ → ℚ)
    (hours : List ℕ) (dayOf : ℕ → ℕ) (d a : ℕ) : ℚ :=
  dfeueDaySum regions rmap eue hours dayOf d a
    / dfloadDaySum regions rmap load hours dayOf d a * 1000000

/-- NEUE [ppm] per day and aggregate region under `period_agg_method='max'`:
the entrywise ratio `dfeue / dfload` is formed first, then the day's maximum
is taken and scaled by `1e6` (lines 168-174). -/
def neueMaxMode (regions : List ℕ) (rmap : ℕ → ℕ) (eue load : ℕ → ℕ → ℚ)
    (hours : List ℕ) (dayOf : ℕ → ℕ) (d a : ℕ) : ℚ :=
  aggMax ((dayHours hours dayOf d).map
    (fun h => aggAt regions rmap eue h a / aggAt regions rmap load h a)) * 1000000

lemma foldl_max_mem : ∀ (l : List ℚ) (v : ℚ), l.foldl max v ∈ v :: l := by
  intro l
  induction l with
  | nil => intro v; simp
  | cons w rest ih =>
      intro v
      rw [List.foldl_cons]
      rcases List.mem_cons.mp (ih (max v w)) with hl | hl
      · rcases max_choice v w with h1 | h1 <;> rw [hl, h1] <;> simp
      · exact List.mem_cons_of_mem _ (List.mem_cons_of_mem _ hl)

lemma le_foldl_max : ∀ (l : List ℚ) (v : ℚ), ∀ x ∈ v :: l, x ≤ l.foldl max v := by
  intro l
  induction l with
  | nil => intro v x hx; simp at hx; simp [hx]
  | cons w rest ih =>
      intro v x hx
      rw [List.foldl_cons]
      rcases List.mem_cons.mp hx with rfl | hx'
      · exact le_trans (le_max_left x w) (ih (max x w) _ (List.mem_cons_self _ _))
      · rcases List.mem_cons.mp hx' with rfl | hx''
        · exact le_trans (le_max_right v x) (ih (max v x) _ (List.mem_cons_self _ _))
        · exact ih (max v w) x (List.mem_cons_of_mem _ hx'')

lemma aggMax_mem (l : List ℚ) (h : l ≠ []) : aggMax l ∈ l := by
  rcases l with _ | ⟨v, rest⟩
  · exact absurd rfl h
  · exact foldl_max_mem rest v

lemma le_aggMax (l : List ℚ) : ∀ x ∈ l, x ≤ aggMax l := by
  rcases l with _ | ⟨v, rest⟩
  · intro x hx; simp at hx
  · intro x hx; exact le_foldl_max rest v x hx

/-! Concrete two-hour, two-base-region input for the divergence part of C2:
both base regions map to aggregate region `0`, both hours belong to day `0`.
Unserved energy peaks in hour `0`, load peaks in hour `1`. -/

/-- Example hourly EUE: 10 MWh in hour 0 for base region 0, else 0. -/
def eueEx (h r : ℕ) : ℚ := if h == 0 && r == 0 then 10 else 0

/-- Example hourly load: 50 MWh per base region in hour 0, 500 in hour 1. -/
def loadEx (h _r : ℕ) : ℚ := if h == 0 then 50 else 500

/-- Example base regions. -/
def regionsEx : List ℕ := [0, 1]

/-- Example region aggregation: both base regions roll up to region 0. -/
def rmapEx (_r : ℕ) : ℕ := 0

/-- Example hours, all in day 0. -/
def hoursEx : List ℕ := [0, 1]

/-- Example day grouping. -/
def dayOfEx (_h : ℕ) : ℕ := 0

lemma dayHours_ex : dayHours hoursEx dayOfEx 0 = [0, 1] := rfl

lemma aggAt_eue_ex0 : aggAt regionsEx rmapEx eueEx 0 0 = 10 := by
  norm_num [aggAt, regionsEx, rmapEx, eueEx]

lemma aggAt_eue_ex1 : aggAt regionsEx rmapEx eueEx 1 0 = 0 := by
  norm_num [aggAt, regionsEx, rmapEx, eueEx]

lemma aggAt_load_ex0 : aggAt regionsEx rmapEx loadEx 0 0 = 100 := by
  norm_num [aggAt, regionsEx, rmapEx, loadEx]

lemma aggAt_load_ex1 : aggAt regionsEx rmapEx loadEx 1 0 = 1000 := by
  norm_num [aggAt, regionsEx, rmapEx, loadEx]

/-- On the example, hourly unserved energy peaks at hour 0. -/
lemma eueEx_peak : aggAt regionsEx rmapEx eueEx 0 0 > aggAt regionsEx rmapEx eueEx 1 0 := by
  rw [aggAt_eue_ex0, aggAt_eue_ex1]; norm_num

/-- On the example, hourly load peaks at hour 1. -/
lemma loadEx_peak : aggAt regionsEx rmapEx loadEx 1 0 > aggAt regionsEx rmapEx loadEx 0 0 := by
  rw [aggAt_load_ex1, aggAt_load_ex0]; norm_num

/-- On the example, sum-mode NEUE is `10/1100 × 1e6` ppm. -/
lemma neueSum_ex :
    neueSumMode regionsEx rmapEx eueEx loadEx hoursEx dayOfEx 0 0 = 100000 / 11 := by
  simp only [neueSumMode, dfeueDaySum, dfloadDaySum, dayHours_ex, List.map_cons,
    List.map_nil, List.sum_cons, List.sum_nil, aggAt_eue_ex0, aggAt_eue_ex1,
    aggAt_load_ex0, aggAt_load_ex1]
  norm_num

/-- On the example, max-mode NEUE is `(10/100) × 1e6 = 100000` ppm. -/
lemma neueMax_ex :
    neueMaxMode regionsEx rmapEx eueEx loadEx hoursEx dayOfEx 0 0 = 100000 := by
  simp only [neueMaxMode, dayHours_ex, List.map_cons, List.map_nil, aggMax,
    List.foldl_cons, List.foldl_nil, aggAt_eue_ex0, aggAt_eue_ex1,
    aggAt_load_ex0, aggAt_load_ex1]
  rw [max_eq_left (by norm_num : (0 : ℚ) / 1000 ≤ 10 / 100)]
  norm_num

/-- On the example the two aggregation methods disagree. -/
lemma neueEx_ne :
    neueSumMode regionsEx rmapEx eueEx loadEx hoursEx dayOfEx 0 0
      ≠ neueMaxMode regionsEx rmapEx eueEx loadEx hoursEx dayOfEx 0 0 := by
  rw [neueSum_ex, neueMax_ex]; norm_num

/-- C2: in `get_stress_periods` with `stress_metric='NEUE'`, under
`period_agg_method='sum'` the daily metric is (daily-summed aggregated EUE) /
(daily-summed aggregated load) × 1e6; under `'max'` it is the maximum over
the day's hours of the per-hour ratio of aggregated EUE to aggregated load,
× 1e6 (the value is attained at some hour of the day and dominates every
hour's ratio); and on a concrete input whose peak-EUE hour and peak-load
hour differ, the two methods disagree for the same day and region. -/
theorem c2_neue_sum_vs_max (regions : List ℕ) (rmap : ℕ → ℕ)
    (eue load : ℕ → ℕ → ℚ) (hours : List ℕ) (dayOf : ℕ → ℕ) (d a : ℕ)
    (hne : dayHours hours dayOf d ≠ []) :
    neueSumMode regions rmap eue load hours dayOf d a =
      ((dayHours hours dayOf d).map (fun h => aggAt regions rmap eue h a)).sum
        / ((dayHours hours dayOf d).map (fun h => aggAt regions rmap load h a)).sum
        * 1000000
    ∧ (∃ h ∈ dayHours hours dayOf d,
        neueMaxMode regions rmap eue load hours dayOf d a =
          aggAt regions rmap eue h a / aggAt regions rmap load h a * 1000000)
    ∧ (∀ h ∈ dayHours hours dayOf d,
        aggAt regions rmap eue h a / aggAt regions rmap load h a * 1000000
          ≤ neueMaxMode regions rmap eue load hours dayOf d a)
    ∧ (aggAt regionsEx rmapEx eueEx 0 0 > aggAt regionsEx rmapEx eueEx 1 0
        ∧ aggAt regionsEx rmapEx loadEx 1 0 > aggAt regionsEx rmapEx loadEx 0 0
        ∧ neueSumMode regionsEx rmapEx eueEx loadEx hoursEx dayOfEx 0 0
            ≠ neueMaxMode regionsEx rmapEx eueEx loadEx hoursEx dayOfEx 0 0) := by
  refine ⟨rfl, ?_, ?_, ?_⟩
  · have hmem := aggMax_mem
      ((dayHours hours dayOf d).map
        (fun h => aggAt regions rmap eue h a / aggAt regions rmap load h a))
      (by simpa using hne)
    rcases List.mem_map.mp hmem with ⟨h, hh, heq⟩
    exact ⟨h, hh, by simp only [neueMaxMode]; rw [← heq]⟩
  · intro h hh
    have := le_aggMax
      ((dayHours hours dayOf d).map
        (fun h => aggAt regions rmap eue h a / aggAt regions rmap load h a))
      _ (List.mem_map_of_mem _ hh)
    simp only [neueMaxMode]
    have hpos : (0 : ℚ) < 1000000 := by norm_num
    exact (mul_le_mul_right hpos).mpr this
  · exact ⟨eueEx_peak, loadEx_peak, neueEx_ne⟩

/-- Closed instantiation of `c2_neue_sum_vs_max` at the concrete example:
day 0 for aggregate region 0 has hours, sum-mode NEUE is `1000000/11` ppm,
and max-mode NEUE is `100000` ppm — so they disagree. -/
theorem c2_neue_sum_vs_max_witness :
    dayHours hoursEx dayOfEx 0 ≠ []
    ∧ neueSumMode regionsEx rmapEx eueEx loadEx hoursEx dayOfEx 0 0
        ≠ neueMaxMode regionsEx rmapEx eueEx loadEx hoursEx dayOfEx 0 0 :=
  ⟨by decide,
    (c2_neue_sum_vs_max regionsEx rmapEx eueEx loadEx hoursEx dayOfEx 0 0
      (by decide)).2.2.2.2.2⟩

/-! ## Criterion loop in `main` (lines 459-592)

One stress-period selection criterion, parsed from one entry of
`GSw_PRM_StressThreshold.split('/')` as
`hierarchy_level_ppm_stressmetric_aggmethod` (line 466).
The file inputs the loop consumes (annual NEUE table, ranked period tables,
existing stress periods, storage flags, shoulder-period computation) are
collected in `AugurData`; the loop body itself — threshold test, selection of
new high-EUE periods, shoulder expansion, and the `break`s on lines 520, 526
and 582 — is embedded concretely in `mainLoop`.
-/

/-- One entry of the criterion list (line 466). -/
structure Criterion where
  hierarchy_level : String
  ppm : ℚ
  stress_metric : String
  period_agg_method : String
deriving DecidableEq, Repr

/-- One row of the ranked period table `_eue_sorted_periods[criterion]`
(lines 476-480): actual period id, calendar date, region, metric value. -/
structure PeriodRow (R P : Type) where
  period : P
  y : ℕ
  m : ℕ
  d : ℕ
  r : R
  metric : ℚ
deriving DecidableEq, Repr

/-- The inputs `main`'s criterion loop reads:
* `neue level aggMethod` — the annual NEUE table `neue[hierarchy_level][period_agg_method]`
  (line 483), as (aggregate region, ppm value) pairs;
* `sortedPeriods c` — `get_stress_periods(...)` sorted descending by the
  stress metric (lines 468-480);
* `existingPeriods` — `stressperiods_this_iteration.actual_period` (lines 440-443);
* `storageCutoffOff` — `GSw_PRM_StressStorageCutoff in ['off','0','false']` (line 515);
* `storageEmpty` — `dfenergy_r.empty` (line 521);
* `shoulders c rows` — the shoulder periods computed on lines 528-579 for the
  selected rows, as (period id, region) pairs;
* `stressIncrement` — `int(sw.GSw_PRM_StressIncrement)` (line 503). -/
structure AugurData (R P : Type) where
  neue : String → String → List (R × ℚ)
  sortedPeriods : Criterion → List (PeriodRow R P)
  existingPeriods : List P
  storageCutoffOff : Bool
  storageEmpty : Bool
  shoulders : Criterion → List (PeriodRow R P) → List (P × R)
  stressIncrement : ℕ

/-- `failed[criterion] = this_test.loc[this_test > float(ppm)]` (line 486). -/
def failedEntries {R P : Type} (data : AugurData R P) (c : Criterion) : List (R × ℚ) :=
  (data.neue c.hierarchy_level c.period_agg_method).filter (fun p => decide (c.ppm < p.2))

/-- The annual threshold test `(this_test > float(ppm)).any()` (line 485). -/
def criterionFails {R P : Type} (data : AugurData R P) (c : Criterion) : Bool :=
  !(failedEntries data c).isEmpty

/-- `drop_duplicates(subset=['y','m','d'])` keeping the first row per calendar
date (line 499). -/
def dedupDatesAux {R P : Type} (seen : List (ℕ × ℕ × ℕ)) :
    List (PeriodRow R P) → List (PeriodRow R P)
  | [] => []
  | row :: rest =>
      if (row.y, row.m, row.d) ∈ seen then dedupDatesAux seen rest
      else row :: dedupDatesAux ((row.y, row.m, row.d) :: seen) rest

/-- `groupby('r').head(n)`: keep each row whose region has appeared fewer than
`n` times so far (line 503). -/
def groupHeadAux {R P : Type} [DecidableEq R] (n : ℕ) (seen : List R) :
    List (PeriodRow R P) → List (PeriodRow R P)
  | [] => []
  | row :: rest =>
      if seen.count row.r < n then row :: groupHeadAux n (row.r :: seen) rest
      else groupHeadAux n seen rest

/-- The selection of new high-EUE periods for a failing criterion
(lines 490-504): restrict the ranked table to rows whose region failed and
whose period is not already a stress period, de-duplicate by calendar date,
then keep the worst `stressIncrement` periods per region. -/
def selectHigh {R P : Type} [DecidableEq R] [DecidableEq P]
    (data : AugurData R P) (c : Criterion) : List (PeriodRow R P) :=
  groupHeadAux data.stressIncrement []
    (dedupDatesAux []
      ((data.sortedPeriods c).filter
        (fun row => decide (row.r ∈ (failedEntries data c).map Prod.fst)
          && !(decide (row.period ∈ data.existingPeriods)))))

/-- The loop's accumulated dictionaries: `_eue_sorted_periods`, `failed`,
`high_eue_periods` and `shoulder_periods` (lines 460-463), each keyed by the
criterion. -/
structure LoopState (R P : Type) where
  eueSorted : List (Criterion × List (PeriodRow R P))
  failed : List (Criterion × List (R × ℚ))
  highEue : List (Criterion × List (PeriodRow R P))
  shoulder : List (Criterion × List (P × R))
deriving DecidableEq, Repr

/-- The empty dictionaries before the loop starts (lines 460-463). -/
def initState (R P : Type) : LoopState R P := ⟨[], [], [], []⟩

/-- The failure branch of the loop body (lines 486-582): record the failure
and the selected periods, then either `break` before the shoulder computation
(storage cutoff off, line 520, or no storage, line 526) or compute shoulder
periods and `break` (line 582).  Every path stops the loop. -/
def failBranch {R P : Type} [DecidableEq R] [DecidableEq P]
    (data : AugurData R P) (c : Criterion) (st : LoopState R P) : LoopState R P :=
  let sel := selectHigh data c
  let st2 : LoopState R P :=
    { st with failed := st.failed ++ [(c, failedEntries data c)],
              highEue := st.highEue ++ [(c, sel)] }
  if data.storageCutoffOff then st2
  else if data.storageEmpty then st2
  else { st2 with shoulder := st2.shoulder ++ [(c, data.shoulders c sel)] }

/-- The criterion loop (lines 464-585): each criterion first contributes its
ranked period table to `_eue_sorted_periods` (lines 476-480), then its annual
threshold is tested (line 485); a passing criterion continues the loop
(line 585), a failing one runs the failure branch and stops. -/
def mainLoop {R P : Type} [DecidableEq R] [DecidableEq P] (data : AugurData R P) :
    List Criterion → LoopState R P → LoopState R P
  | [], st => st
  | c :: rest, st =>
      let st1 : LoopState R P :=
        { st with eueSorted := st.eueSorted ++ [(c, data.sortedPeriods c)] }
      if criterionFails data c then failBranch data c st1
      else mainLoop data rest st1

/-- `drop_duplicates(subset='actual_period', keep='first')` (line 592). -/
def dedupPeriodsAux {P : Type} [DecidableEq P] (seen : List P) :
    List (Criterion × P) → List (Criterion × P)
  | [] => []
  | e :: rest =>
      if e.2 ∈ seen then dedupPeriodsAux seen rest
      else e :: dedupPeriodsAux (e.2 :: seen) rest

/-- `new_stress_periods`: the concatenation of `high_eue_periods` and
`shoulder_periods`, de-duplicated by period id keeping the first occurrence
(lines 590-592), tagged with the criterion each entry came from. -/
def newStressPeriods {R P : Type} [DecidableEq P] (st : LoopState R P) :
    List (Criterion × P) :=
  dedupPeriodsAux []
    ((st.highEue.flatMap (fun e => e.2.map (fun row => (e.1, row.period))))
      ++ (st.shoulder.flatMap (fun e => e.2.map (fun pr => (e.1, pr.1)))))

/-- Passing criteria only add their ranked tables to `_eue_sorted_periods`. -/
def addSorted {R P : Type} (data : AugurData R P) (cs : List Criterion)
    (st : LoopState R P) : LoopState R P :=
  { st with eueSorted := st.eueSorted ++ cs.map (fun c => (c, data.sortedPeriods c)) }

/-- The loop state reached from the start once the criteria in `cs` have
contributed their ranked tables and nothing else has happened. -/
def preState {R P : Type} (data : AugurData R P) (cs : List Criterion) :
    LoopState R P :=
  ⟨cs.map (fun c' => (c', data.sortedPeriods c')), [], [], []⟩

lemma addSorted_nil {R P : Type} (data : AugurData R P) (st : LoopState R P) :
    addSorted data [] st = st := by
  simp [addSorted]

lemma mainLoop_passing_front {R P : Type} [DecidableEq R] [DecidableEq P]
    (data : AugurData R P) :
    ∀ (pre : List Criterion), (∀ c' ∈ pre, criterionFails data c' = false) →
      ∀ (rest : List Criterion) (st : LoopState R P),
        mainLoop data (pre ++ rest) st = mainLoop data rest (addSorted data pre st) := by
  intro pre
  induction pre with
  | nil => intro _ rest st; rw [addSorted_nil]; rfl
  | cons c pre' ih =>
      intro hpass rest st
      have hc : criterionFails data c = false := hpass c (List.mem_cons_self _ _)
      have hpre' : ∀ c' ∈ pre', criterionFails data c' = false :=
        fun c' hc' => hpass c' (List.mem_cons_of_mem _ hc')
      rw [List.cons_append, mainLoop, hc]
      simp only [Bool.false_eq_true, if_false]
      rw [ih hpre' rest]
      congr 1
      simp [addSorted, List.append_assoc]

lemma failBranch_failed {R P : Type} [DecidableEq R] [DecidableEq P]
    (data : AugurData R P) (c : Criterion) (st : LoopState R P) :
    (failBranch data c st).failed = st.failed ++ [(c, failedEntries data c)] := by
  cases hoff : data.storageCutoffOff <;> cases hemp : data.storageEmpty <;>
    simp [failBranch, hoff, hemp]

lemma failBranch_highEue {R P : Type} [DecidableEq R] [DecidableEq P]
    (data : AugurData R P) (c : Criterion) (st : LoopState R P) :
    (failBranch data c st).highEue = st.highEue ++ [(c, selectHigh data c)] := by
  cases hoff : data.storageCutoffOff <;> cases hemp : data.storageEmpty <;>
    simp [failBranch, hoff, hemp]

lemma failBranch_shoulder {R P : Type} [DecidableEq R] [DecidableEq P]
    (data : AugurData R P) (c : Criterion) (st : LoopState R P) :
    ∀ e ∈ (failBranch data c st).shoulder, e ∈ st.shoulder ∨ e.1 = c := by
  intro e he
  cases hoff : data.storageCutoffOff with
  | true =>
      simp [failBranch, hoff] at he
      exact Or.inl he
  | false =>
      cases hemp : data.storageEmpty with
      | true =>
          simp [failBranch, hoff, hemp] at he
          exact Or.inl he
      | false =>
          simp [failBranch, hoff, hemp] at he
          rcases he with h | h
          · exact Or.inl h
          · exact Or.inr (by rw [h])

lemma dedupPeriodsAux_subset {P : Type} [DecidableEq P] :
    ∀ (entries : List (Criterion × P)) (seen : List P) (e : Criterion × P),
      e ∈ dedupPeriodsAux seen entries → e ∈ entries := by
  intro entries
  induction entries with
  | nil => intro seen e he; simp [dedupPeriodsAux] at he
  | cons x rest ih =>
      intro seen e he
      rw [dedupPeriodsAux] at he
      by_cases hx : x.2 ∈ seen
      · rw [if_pos hx] at he
        exact List.mem_cons_of_mem _ (ih seen e he)
      · rw [if_neg hx] at he
        rcases List.mem_cons.mp he with rfl | he'
        · exact List.mem_cons_self _ _
        · exact List.mem_cons_of_mem _ (ih _ e he')

/-- C3: `main` evaluates the ordered criterion list in order and stops at the
first criterion whose annual threshold test fails: the loop result does not
depend on the criteria after the first failing one (so no later criterion has
its threshold tested or its selection/expansion logic run), the failure and
selection dictionaries hold exactly the first failing criterion's entries,
every shoulder entry belongs to it, and every newly added stress period is
tagged with it — even if later criteria would also fail. -/
theorem c3_first_failing_criterion_stops (R P : Type) [DecidableEq R] [DecidableEq P]
    (data : AugurData R P) (pre post post' : List Criterion) (c : Criterion)
    (hpre : ∀ c' ∈ pre, criterionFails data c' = false)
    (hc : criterionFails data c = true) :
    mainLoop data (pre ++ c :: post) (initState R P)
        = mainLoop data (pre ++ c :: post') (initState R P)
    ∧ (mainLoop data (pre ++ c :: post) (initState R P)).failed
        = [(c, failedEntries data c)]
    ∧ (mainLoop data (pre ++ c :: post) (initState R P)).highEue
        = [(c, selectHigh data c)]
    ∧ (∀ e ∈ (mainLoop data (pre ++ c :: post) (initState R P)).shoulder, e.1 = c)
    ∧ (∀ np ∈ newStressPeriods (mainLoop data (pre ++ c :: post) (initState R P)),
        np.1 = c) := by
  have key : ∀ post0 : List Criterion,
      mainLoop data (pre ++ c :: post0) (initState R P)
        = failBranch data c (preState data (pre ++ [c])) := by
    intro post0
    rw [mainLoop_passing_front data pre hpre (c :: post0) (initState R P)]
    rw [mainLoop, hc]
    simp only [if_true]
    congr 1
    simp [addSorted, initState, preState, List.map_append]
  have hshoulder : ∀ e ∈ (mainLoop data (pre ++ c :: post) (initState R P)).shoulder,
      e.1 = c := by
    intro e he
    rw [key post] at he
    rcases failBranch_shoulder data c _ e he with h | h
    · exact absurd h (List.not_mem_nil e)
    · exact h
  refine ⟨(key post).trans (key post').symm, ?_, ?_, hshoulder, ?_⟩
  · rw [key post, failBranch_failed]
    rfl
  · rw [key post, failBranch_highEue]
    rfl
  · intro np hnp
    rw [key post, newStressPeriods] at hnp
    have hsub := dedupPeriodsAux_subset _ _ np hnp
    rcases List.mem_append.mp hsub with hA | hB
    · rw [failBranch_highEue] at hA
      rcases List.mem_flatMap.mp hA with ⟨e, heMem, hnpMem⟩
      rcases List.mem_cons.mp heMem with rfl | h0
      · rcases List.mem_map.mp hnpMem with ⟨row, _, rfl⟩
        rfl
      · exact absurd h0 (List.not_mem_nil e)
    · rcases List.mem_flatMap.mp hB with ⟨e, heMem, hnpMem⟩
      have he1 : e.1 = c := by
        rcases failBranch_shoulder data c _ e heMem with h | h
        · exact absurd h (List.not_mem_nil e)
        · exact h
      rcases List.mem_map.mp hnpMem with ⟨pr, _, rfl⟩
      exact he1

/-- Concrete passing criterion `country_100_EUE_sum`. -/
def cPassEx : Criterion := ⟨"country", 100, "EUE", "sum"⟩

/-- Concrete first failing criterion `transgrp_10_EUE_sum`. -/
def cFailEx : Criterion := ⟨"transgrp", 10, "EUE", "sum"⟩

/-- Concrete later criterion `st_5_EUE_sum`, which would also fail. -/
def cPostEx : Criterion := ⟨"st", 5, "EUE", "sum"⟩

/-- Concrete loop inputs (regions and period ids as naturals): the
country-level test passes, the transgrp-level test fails for region 7, and
the st-level test would also fail for region 3. -/
def dataEx : AugurData ℕ ℕ where
  neue := fun level agg =>
    if level == "transgrp" && agg == "sum" then [(7, 12)]
    else if level == "st" && agg == "sum" then [(3, 99)]
    else []
  sortedPeriods := fun c =>
    if c.hierarchy_level == "transgrp" then
      [⟨101, 2007, 7, 21, 7, 30⟩, ⟨102, 2007, 7, 22, 7, 20⟩]
    else [⟨103, 2007, 1, 15, 3, 50⟩]
  existingPeriods := [102]
  storageCutoffOff := true
  storageEmpty := false
  shoulders := fun _ _ => []
  stressIncrement := 1

/-- Closed instantiation of `c3_first_failing_criterion_stops`: with ordered
criteria `[cPassEx, cFailEx, cPostEx]` where the first passes and both others
fail, the loop result equals the result without `cPostEx`, and only
`cFailEx`'s entries appear in the failure, selection, shoulder and
new-stress-period outputs. -/
theorem c3_first_failing_criterion_stops_witness :
    (∀ c' ∈ [cPassEx], criterionFails dataEx c' = false)
    ∧ criterionFails dataEx cFailEx = true
    ∧ criterionFails dataEx cPostEx = true
    ∧ (mainLoop dataEx ([cPassEx] ++ cFailEx :: [cPostEx]) (initState ℕ ℕ)
          = mainLoop dataEx ([cPassEx] ++ cFailEx :: []) (initState ℕ ℕ)
        ∧ (mainLoop dataEx ([cPassEx] ++ cFailEx :: [cPostEx]) (initState ℕ ℕ)).failed
            = [(cFailEx, failedEntries dataEx cFailEx)]
        ∧ (mainLoop dataEx ([cPassEx] ++ cFailEx :: [cPostEx]) (initState ℕ ℕ)).highEue
            = [(cFailEx, selectHigh dataEx cFailEx)]
        ∧ (∀ e ∈ (mainLoop dataEx ([cPassEx] ++ cFailEx :: [cPostEx])
              (initState ℕ ℕ)).shoulder, e.1 = cFailEx)
        ∧ (∀ np ∈ newStressPeriods
              (mainLoop dataEx ([cPassEx] ++ cFailEx :: [cPostEx]) (initState ℕ ℕ)),
            np.1 = cFailEx)) :=
  ⟨by decide, by decide, by decide,
    c3_first_failing_criterion_stops ℕ ℕ dataEx [cPassEx] [cPostEx] [] cFailEx
      (by decide) (by decide)⟩

end StressPeriods
